import Mathlib

/-!
# FruitFinal — verification of the inference request pipeline

Shallow embedding of the guava-ripeness inference pipeline
(`backend/app/utils.py`, `backend/app/gate.py`,
`backend/app/routes/predict.py`) and proofs about it.

Numeric arrays (`numpy.ndarray`) are embedded as a shape (list of
dimension extents) together with a flat list of rational values; Python
floats are modelled as rationals.
-/

namespace FruitFinal

/-- Embedding of a `numpy.ndarray`: a shape together with the flat data.
`ndim` is the length of the shape, `size` the product of the extents. -/
structure NDArray where
  shape : List Nat
  data : List Rat
deriving DecidableEq, Repr

namespace NDArray

/-- Numpy's `arr.ndim`: the rank. -/
def ndim (a : NDArray) : Nat := a.shape.length

/-- Numpy's `arr.size`: total element count. -/
def size (a : NDArray) : Nat := a.shape.prod

/-- Numpy's `arr.reshape(1, -1)` applied to a rank-1 array: one row holding all
the data. -/
def reshapeRow (a : NDArray) : NDArray := ⟨[1, a.size], a.data⟩

end NDArray

/-- The raw result of `model.predict`: either a single array (single
output model) or an ordered sequence of arrays (multi-output model).
This mirrors the `isinstance(raw, list)` test in `_parse_model_outputs`. -/
inductive RawOutputSet where
  | single (a : NDArray)
  | seq (l : List NDArray)
deriving DecidableEq, Repr

/-- The named-outputs dictionary built by `_parse_model_outputs`
(the `"raw"` passthrough entry is omitted: no claim touches it). -/
structure ParsedOutputs where
  ripeness : Option NDArray
  thermal : Option NDArray
  guava_guard : Option NDArray
deriving DecidableEq, Repr

/-- The error the specification names for a malformed model output.
The body of `_parse_model_outputs` contains no `raise` statement, so the
embedded function never produces this error; the type exists so that the
spec's claim about raising is statable. -/
inductive MalformedOutputError where
  | mk
deriving DecidableEq, Repr

/-- Stable descending insertion by key: `x` is placed before the first
element whose key is `≤` the key of `x`, so among equal keys earlier
(inserted-first) elements stay first.  Together with `sortDescBy` this
embeds Python's stable `list.sort(key=…, reverse=True)`. -/
def insertDescBy {α β : Type _} [LinearOrder β] (key : α → β) (x : α) :
    List α → List α
  | [] => [x]
  | y :: ys => if key y ≤ key x then x :: y :: ys else y :: insertDescBy key x ys

/-- Stable descending sort by key (insertion sort), embedding Python's
`list.sort(key=…, reverse=True)`, which is stable. -/
def sortDescBy {α β : Type _} [LinearOrder β] (key : α → β) : List α → List α
  | [] => []
  | x :: xs => insertDescBy key x (sortDescBy key xs)

/-- Stable ascending insertion by key: `x` is placed before the first
element whose key is strictly greater, so among equal keys earlier
elements stay first. -/
def insertAscBy {α β : Type _} [LinearOrder β] (key : α → β) (x : α) :
    List α → List α
  | [] => [x]
  | y :: ys => if key x ≤ key y then x :: y :: ys else y :: insertAscBy key x ys

/-- Stable ascending sort by key (insertion sort), embedding Python's
`list.sort(key=…)`. -/
def sortAscBy {α β : Type _} [LinearOrder β] (key : α → β) : List α → List α
  | [] => []
  | x :: xs => insertAscBy key x (sortAscBy key xs)

/-- The classification loop of `_parse_model_outputs`: walk the raw list
with its indices, putting rank-4 arrays into the spatial candidate list
and rank-2 / rank-1 arrays (the latter reshaped to one row) into the
classification candidate list; all other ranks are skipped.  `i` is the
index of the first element of the remaining list. -/
def classifyOutputs (i : Nat) : List NDArray →
    List (Nat × NDArray) × List (Nat × NDArray)
  | [] => ([], [])
  | a :: rest =>
    let (sp, cl) := classifyOutputs (i + 1) rest
    if a.ndim = 4 then ((i, a) :: sp, cl)
    else if a.ndim = 2 then (sp, (i, a) :: cl)
    else if a.ndim = 1 then (sp, (i, a.reshapeRow) :: cl)
    else (sp, cl)

/-- Embedding of `_parse_model_outputs` (utils.py).  A single (non-list)
output becomes the ripeness role.  Otherwise the elements are classified
by rank; the spatial candidates are sorted descending by `size` (stable,
so ties keep original order) and the largest becomes the thermal role;
the classification candidates are sorted by original index and the first
becomes the ripeness role, the second (if present) the guard role.  The
Python body contains no `raise`, so the result is always `.ok`. -/
def parseModelOutputs : RawOutputSet →
    Except MalformedOutputError ParsedOutputs
  | .single a => .ok { ripeness := some a, thermal := none, guava_guard := none }
  | .seq raw =>
    let (sp, cl) := classifyOutputs 0 raw
    let spSorted := sortDescBy (fun p => p.2.size) sp
    let clSorted := sortAscBy (fun p => p.1) cl
    .ok { ripeness := (clSorted.get? 0).map (·.2)
          thermal := (spSorted.head?).map (·.2)
          guava_guard := (clSorted.get? 1).map (·.2) }

/-! ## Pixels, HSV conversion and the colour gate (`gate.py`) -/

/-- One RGB pixel: red, green, blue 8-bit samples modelled as naturals. -/
abbrev RGB := Nat × Nat × Nat

/-- A decoded image: a height × width grid of RGB pixels (`PixelBuffer`
in the spec, the `img_rgb` numpy array in the code), stored row-major as
a list of rows. -/
abbrev PixelBuffer := List (List RGB)

/-- Numpy's `img.shape[0]`. -/
def PixelBuffer.height (img : PixelBuffer) : Nat := img.length

/-- Numpy's `img.shape[1]`: the length of the first row (0 for an empty image). -/
def PixelBuffer.width (img : PixelBuffer) : Nat :=
  (img.head?.map List.length).getD 0

/-- All samples of the buffer are 8-bit (≤ 255). -/
abbrev PixelBuffer.bounded (img : PixelBuffer) : Prop :=
  ∀ row ∈ img, ∀ p ∈ row, p.1 ≤ 255 ∧ p.2.1 ≤ 255 ∧ p.2.2 ≤ 255

/-- Models the external OpenCV 8-bit RGB→HSV conversion
(`cv2.cvtColor(·, COLOR_RGB2BGR)` followed by `COLOR_BGR2HSV`), per
OpenCV's documented formula: V = max(R,G,B); S = 255·(V−min)/V rounded
(0 when V = 0); H = hue angle on the 0–360 scale halved to 0–179.
Saturation rounds half-up and hue truncates; the exact rounding at the
single boundary value does not affect any property proved here. -/
def rgbToHsv (p : RGB) : Nat × Nat × Nat :=
  let r := p.1
  let g := p.2.1
  let b := p.2.2
  let v := max r (max g b)
  let mn := min r (min g b)
  let d := v - mn
  let s := if v = 0 then 0 else (2 * 255 * d + v) / (2 * v)
  let h :=
    if d = 0 then 0
    else
      let hNum : Int :=
        if v = r then 60 * ((g : Int) - (b : Int))
        else if v = g then 120 * (d : Int) + 60 * ((b : Int) - (r : Int))
        else 240 * (d : Int) + 60 * ((r : Int) - (g : Int))
      ((hNum % (360 * (d : Int))).toNat) / (2 * d)
  (h, s, v)

/-- The constant `LOWER_GUAVA = np.array([25, 40, 40])` (gate.py). -/
def LOWER_GUAVA : Nat × Nat × Nat := (25, 40, 40)

/-- The constant `UPPER_GUAVA = np.array([85, 255, 255])` (gate.py). -/
def UPPER_GUAVA : Nat × Nat × Nat := (85, 255, 255)

/-- The constant `DEFAULT_MATCH_PCT_THRESHOLD = 20.0` (gate.py); a percentage. -/
def DEFAULT_MATCH_PCT_THRESHOLD : Rat := 20

/-- The test `cv2.inRange(hsv, LOWER_GUAVA, UPPER_GUAVA)` for one pixel: every
channel lies between the corresponding lower and upper bound. -/
def inGuavaRange (hsv : Nat × Nat × Nat) : Bool :=
  decide (LOWER_GUAVA.1 ≤ hsv.1 ∧ hsv.1 ≤ UPPER_GUAVA.1 ∧
    LOWER_GUAVA.2.1 ≤ hsv.2.1 ∧ hsv.2.1 ≤ UPPER_GUAVA.2.1 ∧
    LOWER_GUAVA.2.2 ≤ hsv.2.2 ∧ hsv.2.2 ≤ UPPER_GUAVA.2.2)

/-- The gate object (`GuavaGate.__init__`): a percentage threshold and
an enabled flag. -/
structure GuavaGate where
  threshold : Rat
  enabled : Bool
deriving DecidableEq, Repr

/-- The information content of the gate's message strings (the exact
formatted text is presentation only). -/
inductive GateMessage where
  | gateDisabled
  | guavaConfirmed (pct : Rat)
  | notGuava
deriving DecidableEq, Repr

/-- Embedding of `GuavaGate.check_color` (gate.py).  Disabled gate:
pass-through `(True, 100.0, …)`.  Enabled: count the pixels whose HSV
value is in the guava range, compute the match percentage over
`shape[0] * shape[1]` pixels, and compare against the threshold.
(The Python float arithmetic is modelled as exact rationals; for an
image with zero pixels the Python code would divide by zero, so the
theorems below assume a positive pixel count.) -/
def GuavaGate.check_color (gate : GuavaGate) (img : PixelBuffer) :
    Bool × Rat × GateMessage :=
  if !gate.enabled then (true, 100, .gateDisabled)
  else
    let totalPixels := img.height * img.width
    let matchingPixels :=
      (img.map (fun row => row.countP (fun p => inGuavaRange (rgbToHsv p)))).sum
    let matchPct : Rat := ((matchingPixels : Rat) / (totalPixels : Rat)) * 100
    let isGuava := decide (gate.threshold ≤ matchPct)
    let message := if isGuava then GateMessage.guavaConfirmed matchPct
      else GateMessage.notGuava
    (isGuava, matchPct, message)

/-- The mask criterion exactly as the specification words it: hue in
[25, 85] with saturation and value each at least 40 (no upper bounds on
saturation or value).  Stated separately from `inGuavaRange` so that the
gate claim compares the code's `inRange` bounds against the spec's. -/
def guavaMaskSpec (p : RGB) : Bool :=
  let hsv := rgbToHsv p
  decide (25 ≤ hsv.1 ∧ hsv.1 ≤ 85 ∧ 40 ≤ hsv.2.1 ∧ 40 ≤ hsv.2.2)

/-- Proof helper: the match percentage computed by the enabled gate,
written out once (`match_pct` in `check_color`). -/
def gateMatchPct (img : PixelBuffer) : Rat :=
  (((img.map fun row => row.countP fun p => inGuavaRange (rgbToHsv p)).sum : Nat) : Rat)
    / ((img.height * img.width : Nat) : Rat) * 100

/-! ## Image preprocessing (`utils.py`: `preprocess_image`) -/

/-- Models the external OpenCV grayscale conversion
(`cv2.cvtColor(·, COLOR_RGB2GRAY)`): Y = 0.299 R + 0.587 G + 0.114 B,
rounded to the nearest integer (half up). -/
def rgbToGray (p : RGB) : Nat :=
  (299 * p.1 + 587 * p.2.1 + 114 * p.2.2 + 500) / 1000

/-- Models the external `cv2.resize(·, (w, h), interpolation=INTER_AREA)`:
a grid of exactly `h` rows × `w` columns whose entries are samples taken
from the source grid (8-bit in, 8-bit out).  The INTER_AREA averaging
arithmetic is internal to OpenCV; every property proved here holds for
any interpolation that returns source-range samples, so the model picks
the area-representative source sample of each target cell. -/
def cvResize {γ : Type _} [Inhabited γ] (img : List (List γ)) (w h : Nat) :
    List (List γ) :=
  let srcH := img.length
  let srcW := (img.head?.map List.length).getD 0
  (List.range h).map fun i =>
    (List.range w).map fun j =>
      ((img.getD (i * srcH / h) []).getD (j * srcW / w) default)

/-- A rank-4 tensor (batch, height, width, channel) of rationals, the
`ModelInputTensor` produced by `preprocess_image`. -/
abbrev Tensor4 := List (List (List (List Rat)))

/-- The numpy shape of a `Tensor4`: the four nesting lengths. -/
def tensorShape (t : Tensor4) : List Nat :=
  [t.length,
   (t.headD []).length,
   ((t.headD []).headD []).length,
   (((t.headD []).headD []).headD []).length]

/-- Embedding of `preprocess_image` (utils.py): optional grayscale
collapse, resize to the target geometry, scale to [0, 1] by dividing by
255, and add a leading batch axis (plus a trailing channel axis in the
grayscale case). -/
def preprocess_image (img : PixelBuffer) (target_size : Nat × Nat)
    (channels : Nat) : Tensor4 :=
  let h := target_size.1
  let w := target_size.2
  if channels = 1 then
    let imgGray := img.map fun row => row.map rgbToGray
    let imgResized := cvResize imgGray w h
    let imgFloat := imgResized.map fun row => row.map fun (n : Nat) => (n : Rat) / 255
    [imgFloat.map fun row => row.map fun x => [x]]
  else
    let imgResized := cvResize img w h
    let imgFloat := imgResized.map fun row => row.map fun p =>
      [(p.1 : Rat) / 255, (p.2.1 : Rat) / 255, (p.2.2 : Rat) / 255]
    [imgFloat]

/-! ## Thermal rendering (`utils.py`: `render_thermal_image`) -/

/-- Numpy's `arr.min()` over the flat data (0 for an empty array, where numpy
would raise). -/
def listMin (l : List Rat) : Rat := l.foldl min (l.headD 0)

/-- Numpy's `arr.max()` over the flat data. -/
def listMax (l : List Rat) : Rat := l.foldl max (l.headD 0)

/-- The normalised 8-bit intensity grid computed by
`render_thermal_image` (utils.py), on the flat data: if the value range
exceeds 1e-6, linearly rescale to 0–255 (`astype(np.uint8)` truncates,
and the scaled values are non-negative, so truncation is the floor);
otherwise an all-zero grid (`np.zeros_like`).  The subsequent
`applyColorMap`, PNG encoding and base64 wrapping are external
injective encodings of this grid and are not modelled. -/
def renderThermalNorm (a : NDArray) : List Nat :=
  let mn := listMin a.data
  let mx := listMax a.data
  if 1 / 1000000 < mx - mn then
    a.data.map fun x => (⌊(x - mn) / (mx - mn) * 255⌋).toNat
  else
    a.data.map fun _ => 0

/-! ## Label ranking (`utils.py`: `build_predictions`) -/

/-- The label synthesised for classes without a name: the text class_ followed
by the class index. -/
def classLabel (i : Nat) : String := "class_" ++ toString i

/-- One `PredictionItem`: a label and its confidence. -/
structure PredictionItem where
  label : String
  confidence : Rat
deriving DecidableEq, Repr

/-- Embedding of `build_predictions` (utils.py): flatten the scores, a
single sigmoid probability `p` becomes the pair `[1 − p, p]`, labels are
assigned positionally (missing ones synthesised as `class_-i-`), the
items are sorted descending by confidence (Python's stable sort) and
truncated to `top_k` (the Python default `top_k = 5` is passed
explicitly by callers here). -/
def build_predictions (ripeness_array : NDArray)
    (labels : Option (List String)) (top_k : Nat) : List PredictionItem :=
  let probs := ripeness_array.data
  let probs := if probs.length = 1 then [1 - probs.headD 0, probs.headD 0]
    else probs
  let num_classes := probs.length
  let label_list : List String :=
    match labels with
    | none => (List.range num_classes).map classLabel
    | some ls =>
      ls ++ (List.range' ls.length (num_classes - ls.length)).map classLabel
  let results := (List.range num_classes).map fun i =>
    PredictionItem.mk (label_list.getD i "") (probs.getD i 0)
  (sortDescBy (fun r => r.confidence) results).take top_k

/-! ## The /predict route (`routes/predict.py`) -/

/-- The serving context built at startup (`app.state` in main.py) as
seen from the decoded-image point of the `/predict` handler: the loaded
model as an abstract callable plus its declared input geometry, the class
labels, and the gate. -/
structure AppState where
  modelInputShape : List Nat
  modelPredict : Tensor4 → RawOutputSet
  inputSize : Nat × Nat
  channels : Nat
  labels : Option (List String)
  gate : GuavaGate

/-- Python's `round(x, 4)` used for `gate_confidence` (round half away from zero
on exact .00005 ties, where Python rounds half to even — no claim
depends on a tie). -/
def round4 (x : Rat) : Rat := (round (x * 10000) : Int) / 10000

/-- The `meta` object of a `/predict` response (`processing_time_ms`,
a wall-clock measurement, is outside the embedding). -/
structure PredictMeta where
  model_input_shape : List Nat
  gate_confidence : Rat
  gate_message : GateMessage
deriving DecidableEq

/-- A successful (HTTP 200) `/predict` JSON body.  The gate-rejection
body carries the extra top-level `message` and `gate_confidence` keys,
absent (`none`) on the accepted path. -/
structure PredictResponse where
  success : Bool
  is_guava : Bool
  message : Option GateMessage
  gate_confidence : Option Rat
  predictions : List PredictionItem
  thermal_image : Option (List Nat)
  meta : PredictMeta
deriving DecidableEq

/-- A non-200 outcome of the handler after the gate: the HTTP 500
raised when inference or output parsing fails.  With the model embedded
as a pure function the TensorFlow-runtime failure cannot occur; the
case `ripenessMissing` models `build_predictions(None, …)`, which would
raise in Python when the model returned no classification output. -/
inductive PredictFailure where
  | ripenessMissing
  | malformedOutput
deriving DecidableEq, Repr

/-- Embedding of the `/predict` handler (`routes/predict.py`) from the
point where the image has been decoded: run the colour gate; on
rejection return the early JSON body; otherwise preprocess, invoke the
model, build predictions and render the thermal image (render failure
is caught in Python and yields `thermal_image = None`; the only raise
in the embedded renderer's scope is the external PNG encoder, not
modelled).  The second component records whether the pipeline ran past
the gate (preprocessing + inference); the gate-rejected path never
reaches those stages. -/
def predictCore (st : AppState) (img : PixelBuffer) :
    Except PredictFailure (PredictResponse × Bool) :=
  let gateResult := st.gate.check_color img
  let isGuava := gateResult.1
  let matchPct := gateResult.2.1
  let gateMessage := gateResult.2.2
  if !isGuava then
    .ok ({ success := true
           is_guava := false
           message := some gateMessage
           gate_confidence := some (round4 (matchPct / 100))
           predictions := []
           thermal_image := none
           meta := { model_input_shape := st.modelInputShape
                     gate_confidence := round4 (matchPct / 100)
                     gate_message := gateMessage } }, false)
  else
    let inputArray := preprocess_image img st.inputSize st.channels
    match parseModelOutputs (st.modelPredict inputArray) with
    | .error _ => .error .malformedOutput
    | .ok outputs =>
      match outputs.ripeness with
      | none => .error .ripenessMissing
      | some ripeness =>
        let predictions := build_predictions ripeness st.labels 5
        let thermal := outputs.thermal.map renderThermalNorm
        .ok ({ success := true
               is_guava := true
               message := none
               gate_confidence := none
               predictions := predictions
               thermal_image := thermal
               meta := { model_input_shape := st.modelInputShape
                         gate_confidence := round4 (matchPct / 100)
                         gate_message := gateMessage } }, true)

/-- Proof helper: the first element of a list attaining the maximal key
(ties won by the earlier element).  `sortDescBy` being a stable
descending sort, its head is exactly this element. -/
def firstMaxBy {α β : Type _} [LinearOrder β] (key : α → β) : List α → Option α
  | [] => none
  | x :: xs =>
    match firstMaxBy key xs with
    | none => some x
    | some m => if key m ≤ key x then some x else some m

section SortLemmas

variable {α β : Type _} [LinearOrder β] (key : α → β)

theorem firstMaxBy_eq_none_iff (l : List α) :
    firstMaxBy key l = none ↔ l = [] := by
  cases l with
  | nil => simp [firstMaxBy]
  | cons x xs =>
    simp only [firstMaxBy]
    cases firstMaxBy key xs with
    | none => simp
    | some m =>
      by_cases h : key m ≤ key x <;> simp [h]

theorem sortDescBy_head? (l : List α) :
    (sortDescBy key l).head? = firstMaxBy key l := by
  induction l with
  | nil => rfl
  | cons x xs ih =>
    simp only [sortDescBy, firstMaxBy, ← ih]
    cases h : sortDescBy key xs with
    | nil => simp [insertDescBy]
    | cons y ys =>
      simp only [insertDescBy, List.head?]
      by_cases hle : key y ≤ key x <;> simp [hle]

theorem firstMaxBy_spec (idx : α → Nat) :
    ∀ (l : List α), l.Pairwise (fun p q => idx p < idx q) →
    ∀ p, firstMaxBy key l = some p →
    p ∈ l ∧ ∀ q ∈ l, key q ≤ key p ∧ (key q = key p → idx p ≤ idx q) := by
  intro l
  induction l with
  | nil => intro _ p hp; simp [firstMaxBy] at hp
  | cons x xs ih =>
    intro hpw p hp
    rw [List.pairwise_cons] at hpw
    obtain ⟨hx, hpwxs⟩ := hpw
    cases hm : firstMaxBy key xs with
    | none =>
      have hnil : xs = [] := (firstMaxBy_eq_none_iff key xs).1 hm
      simp only [firstMaxBy, hm] at hp
      obtain rfl : x = p := Option.some.inj hp
      subst hnil
      simp
    | some m =>
      simp only [firstMaxBy, hm] at hp
      obtain ⟨hmem, hmax⟩ := ih hpwxs m hm
      by_cases hle : key m ≤ key x
      · rw [if_pos hle] at hp
        obtain rfl : x = p := Option.some.inj hp
        refine ⟨List.mem_cons_self _ _, ?_⟩
        intro q hq
        rcases List.mem_cons.1 hq with rfl | hq
        · exact ⟨le_refl _, fun _ => le_refl _⟩
        · exact ⟨le_trans (hmax q hq).1 hle, fun _ => le_of_lt (hx q hq)⟩
      · rw [if_neg hle] at hp
        obtain rfl : m = p := Option.some.inj hp
        push_neg at hle
        refine ⟨List.mem_cons_of_mem _ hmem, ?_⟩
        intro q hq
        rcases List.mem_cons.1 hq with rfl | hq
        · exact ⟨le_of_lt hle, fun h => absurd h (ne_of_lt hle)⟩
        · exact hmax q hq

theorem insertAscBy_of_lt (x : α) (l : List α)
    (h : ∀ q ∈ l, key x < key q) : insertAscBy key x l = x :: l := by
  cases l with
  | nil => rfl
  | cons y ys =>
    have : key x ≤ key y := le_of_lt (h y (List.mem_cons_self _ _))
    simp [insertAscBy, this]

theorem sortAscBy_of_pairwise (l : List α)
    (hpw : l.Pairwise (fun p q => key p < key q)) :
    sortAscBy key l = l := by
  induction l with
  | nil => rfl
  | cons x xs ih =>
    rw [List.pairwise_cons] at hpw
    obtain ⟨hx, hpwxs⟩ := hpw
    simp only [sortAscBy, ih hpwxs]
    exact insertAscBy_of_lt key x xs hx

end SortLemmas

section ClassifyLemmas

theorem classifyOutputs_fst_cons (i : Nat) (a : NDArray) (l : List NDArray) :
    (classifyOutputs i (a :: l)).1 =
      if a.ndim = 4 then (i, a) :: (classifyOutputs (i + 1) l).1
      else (classifyOutputs (i + 1) l).1 := by
  simp only [classifyOutputs]
  split <;> [skip; split <;> [skip; split]] <;> simp_all

theorem classifyOutputs_snd_cons (i : Nat) (a : NDArray) (l : List NDArray) :
    (classifyOutputs i (a :: l)).2 =
      if a.ndim = 4 then (classifyOutputs (i + 1) l).2
      else if a.ndim = 2 then (i, a) :: (classifyOutputs (i + 1) l).2
      else if a.ndim = 1 then (i, a.reshapeRow) :: (classifyOutputs (i + 1) l).2
      else (classifyOutputs (i + 1) l).2 := by
  simp only [classifyOutputs]
  split <;> [skip; split <;> [skip; split]] <;> simp_all

theorem classifyOutputs_fst_le (l : List NDArray) :
    ∀ i p, p ∈ (classifyOutputs i l).1 → i ≤ p.1 := by
  induction l with
  | nil => intro i p hp; simp [classifyOutputs] at hp
  | cons a rest ih =>
    intro i p hp
    rw [classifyOutputs_fst_cons] at hp
    by_cases h4 : a.ndim = 4
    · rw [if_pos h4] at hp
      rcases List.mem_cons.1 hp with rfl | hp
      · exact le_refl _
      · exact le_trans (Nat.le_succ i) (ih (i + 1) p hp)
    · rw [if_neg h4] at hp
      exact le_trans (Nat.le_succ i) (ih (i + 1) p hp)

theorem classifyOutputs_snd_le (l : List NDArray) :
    ∀ i p, p ∈ (classifyOutputs i l).2 → i ≤ p.1 := by
  induction l with
  | nil => intro i p hp; simp [classifyOutputs] at hp
  | cons a rest ih =>
    intro i p hp
    rw [classifyOutputs_snd_cons] at hp
    have htail : ∀ q, q ∈ (classifyOutputs (i + 1) rest).2 → i ≤ q.1 :=
      fun q hq => le_trans (Nat.le_succ i) (ih (i + 1) q hq)
    split at hp
    · exact htail p hp
    · split at hp
      · rcases List.mem_cons.1 hp with rfl | hp
        · exact le_refl _
        · exact htail p hp
      · split at hp
        · rcases List.mem_cons.1 hp with rfl | hp
          · exact le_refl _
          · exact htail p hp
        · exact htail p hp

theorem classifyOutputs_fst_pairwise (l : List NDArray) :
    ∀ i, ((classifyOutputs i l).1).Pairwise (fun p q => p.1 < q.1) := by
  induction l with
  | nil => intro i; simp [classifyOutputs]
  | cons a rest ih =>
    intro i
    rw [classifyOutputs_fst_cons]
    split
    · refine List.pairwise_cons.2 ⟨?_, ih (i + 1)⟩
      intro q hq
      exact lt_of_lt_of_le (Nat.lt_succ_self i) (classifyOutputs_fst_le rest (i + 1) q hq)
    · exact ih (i + 1)

theorem classifyOutputs_snd_pairwise (l : List NDArray) :
    ∀ i, ((classifyOutputs i l).2).Pairwise (fun p q => p.1 < q.1) := by
  induction l with
  | nil => intro i; simp [classifyOutputs]
  | cons a rest ih =>
    intro i
    have hcons : ∀ b : Nat × NDArray, b.1 = i →
        ((b :: (classifyOutputs (i + 1) rest).2)).Pairwise
          (fun p q => p.1 < q.1) := by
      intro b hb
      refine List.pairwise_cons.2 ⟨?_, ih (i + 1)⟩
      intro q hq
      rw [hb]
      exact lt_of_lt_of_le (Nat.lt_succ_self i) (classifyOutputs_snd_le rest (i + 1) q hq)
    rw [classifyOutputs_snd_cons]
    split
    · exact ih (i + 1)
    · split
      · exact hcons _ rfl
      · split
        · exact hcons _ rfl
        · exact ih (i + 1)

theorem classifyOutputs_fst_mem (l : List NDArray) :
    ∀ i j b, (j, b) ∈ (classifyOutputs i l).1 ↔
      ∃ k, l[k]? = some b ∧ j = i + k ∧ b.ndim = 4 := by
  induction l with
  | nil => intro i j b; simp [classifyOutputs]
  | cons a rest ih =>
    intro i j b
    rw [classifyOutputs_fst_cons]
    constructor
    · intro hp
      by_cases h4 : a.ndim = 4
      · rw [if_pos h4] at hp
        rcases List.mem_cons.1 hp with heq | hp
        · obtain ⟨rfl, rfl⟩ := Prod.mk.injEq .. ▸ heq
          injection heq with h1 h2
          exact ⟨0, by simp, by simp, h4⟩
        · obtain ⟨k, hk, rfl, hb4⟩ := (ih (i + 1) j b).1 hp
          exact ⟨k + 1, by simpa using hk, by omega, hb4⟩
      · rw [if_neg h4] at hp
        obtain ⟨k, hk, rfl, hb4⟩ := (ih (i + 1) j b).1 hp
        exact ⟨k + 1, by simpa using hk, by omega, hb4⟩
    · rintro ⟨k, hk, rfl, hb4⟩
      cases k with
      | zero =>
        simp at hk
        subst hk
        simp [hb4]
      | succ k =>
        simp at hk
        have hmem : (i + 1 + k, b) ∈ (classifyOutputs (i + 1) rest).1 :=
          (ih (i + 1) (i + 1 + k) b).2 ⟨k, by simpa using hk, rfl, hb4⟩
        have harith : i + (k + 1) = i + 1 + k := by omega
        rw [harith]
        split
        · exact List.mem_cons_of_mem _ hmem
        · exact hmem

theorem classifyOutputs_fst_nil (l : List NDArray)
    (h : ∀ a ∈ l, a.ndim ≠ 4) : ∀ i, (classifyOutputs i l).1 = [] := by
  induction l with
  | nil => intro i; simp [classifyOutputs]
  | cons a rest ih =>
    intro i
    rw [classifyOutputs_fst_cons,
      if_neg (h a (List.mem_cons_self _ _)),
      ih (fun b hb => h b (List.mem_cons_of_mem _ hb)) (i + 1)]

end ClassifyLemmas

section ResolverHelpers

theorem classifyOutputs_snd_nil (l : List NDArray)
    (h : ∀ a ∈ l, a.ndim ≠ 1 ∧ a.ndim ≠ 2) :
    ∀ i, (classifyOutputs i l).2 = [] := by
  induction l with
  | nil => intro i; simp [classifyOutputs]
  | cons a rest ih =>
    intro i
    have ha := h a (List.mem_cons_self _ _)
    have ihrest := ih (fun b hb => h b (List.mem_cons_of_mem _ hb)) (i + 1)
    rw [classifyOutputs_snd_cons]
    split
    · exact ihrest
    · rw [if_neg ha.2, if_neg ha.1]
      exact ihrest

theorem classifyOutputs_snd_ndim (l : List NDArray) :
    ∀ i p, p ∈ (classifyOutputs i l).2 → p.2.ndim = 2 := by
  induction l with
  | nil => intro i p hp; simp [classifyOutputs] at hp
  | cons a rest ih =>
    intro i p hp
    rw [classifyOutputs_snd_cons] at hp
    split at hp
    · exact ih (i + 1) p hp
    · split at hp
      · rcases List.mem_cons.1 hp with rfl | hp
        · assumption
        · exact ih (i + 1) p hp
      · split at hp
        · rcases List.mem_cons.1 hp with rfl | hp
          · simp [NDArray.reshapeRow, NDArray.ndim]
          · exact ih (i + 1) p hp
        · exact ih (i + 1) p hp

theorem parseModelOutputs_seq (raw : List NDArray) :
    parseModelOutputs (.seq raw) = .ok
      { ripeness :=
          ((sortAscBy (fun p => p.1) (classifyOutputs 0 raw).2).get? 0).map (·.2)
        thermal :=
          ((sortDescBy (fun p => p.2.size) (classifyOutputs 0 raw).1).head?).map (·.2)
        guava_guard :=
          ((sortAscBy (fun p => p.1) (classifyOutputs 0 raw).2).get? 1).map (·.2) } := by
  rcases hc : classifyOutputs 0 raw with ⟨sp, cl⟩
  simp [parseModelOutputs, hc]

end ResolverHelpers

section GateHelpers

theorem rgbToHsv_sat_le (p : RGB) : (rgbToHsv p).2.1 ≤ 255 := by
  rcases p with ⟨r, g, b⟩
  simp only [rgbToHsv]
  by_cases hv : max r (max g b) = 0
  · simp [hv]
  · rw [if_neg hv]
    have hv1 : 1 ≤ max r (max g b) := Nat.one_le_iff_ne_zero.2 hv
    have hd : max r (max g b) - min r (min g b) ≤ max r (max g b) :=
      Nat.sub_le _ _
    have h2v : 0 < 2 * max r (max g b) := by omega
    have : 2 * 255 * (max r (max g b) - min r (min g b)) + max r (max g b) <
        256 * (2 * max r (max g b)) := by omega
    have := (Nat.div_lt_iff_lt_mul h2v).2 (by omega :
      2 * 255 * (max r (max g b) - min r (min g b)) + max r (max g b) <
        256 * (2 * max r (max g b)))
    omega

theorem rgbToHsv_val_le (p : RGB) (hb : p.1 ≤ 255 ∧ p.2.1 ≤ 255 ∧ p.2.2 ≤ 255) :
    (rgbToHsv p).2.2 ≤ 255 := by
  rcases p with ⟨r, g, b⟩
  simp only [rgbToHsv]
  simp only [Prod.fst, Prod.snd] at hb
  omega

theorem inGuavaRange_eq_spec (p : RGB)
    (hb : p.1 ≤ 255 ∧ p.2.1 ≤ 255 ∧ p.2.2 ≤ 255) :
    inGuavaRange (rgbToHsv p) = guavaMaskSpec p := by
  have hs := rgbToHsv_sat_le p
  have hv := rgbToHsv_val_le p hb
  simp only [inGuavaRange, guavaMaskSpec, LOWER_GUAVA, UPPER_GUAVA]
  apply decide_eq_decide.2
  constructor
  · rintro ⟨h1, h2, h3, h4, h5, h6⟩
    exact ⟨h1, h2, h3, h5⟩
  · rintro ⟨h1, h2, h3, h4⟩
    exact ⟨h1, h2, h3, hs, h4, hv⟩

end GateHelpers

section RenderHelpers

theorem foldl_min_const (c : Rat) (l : List Rat) (h : ∀ y ∈ l, y = c) :
    l.foldl min c = c := by
  induction l with
  | nil => rfl
  | cons y ys ih =>
    have hy : y = c := h y (List.mem_cons_self _ _)
    simp only [List.foldl_cons, hy, min_self]
    exact ih (fun z hz => h z (List.mem_cons_of_mem _ hz))

theorem foldl_max_const (c : Rat) (l : List Rat) (h : ∀ y ∈ l, y = c) :
    l.foldl max c = c := by
  induction l with
  | nil => rfl
  | cons y ys ih =>
    have hy : y = c := h y (List.mem_cons_self _ _)
    simp only [List.foldl_cons, hy, max_self]
    exact ih (fun z hz => h z (List.mem_cons_of_mem _ hz))

theorem listMin_eq_listMax_of_const (l : List Rat)
    (h : ∀ x ∈ l, ∀ y ∈ l, x = y) : listMin l = listMax l := by
  cases l with
  | nil => rfl
  | cons x xs =>
    have hall : ∀ y ∈ x :: xs, y = x :=
      fun y hy => h y hy x (List.mem_cons_self _ _)
    simp only [listMin, listMax, List.headD_cons]
    rw [foldl_min_const x _ hall, foldl_max_const x _ hall]

end RenderHelpers

section ResizeHelpers

theorem getD_mem_or_default {γ : Type _} (l : List γ) (n : Nat) (d : γ) :
    l.getD n d ∈ l ∨ l.getD n d = d := by
  rw [List.getD_eq_getElem?_getD]
  cases h : l[n]? with
  | none => simp
  | some v => simp [List.getElem?_mem h]

theorem cvResize_mem {γ : Type _} [Inhabited γ] (img : List (List γ))
    (w h : Nat) (row : List γ) (hrow : row ∈ cvResize img w h)
    (y : γ) (hy : y ∈ row) :
    (∃ r ∈ img, y ∈ r) ∨ y = default := by
  simp only [cvResize, List.mem_map] at hrow
  obtain ⟨i, _, rfl⟩ := hrow
  simp only [List.mem_map] at hy
  obtain ⟨j, _, rfl⟩ := hy
  rcases getD_mem_or_default img (i * img.length / h) [] with hr | hr
  · rcases getD_mem_or_default
        (img.getD (i * img.length / h) []) (j * ((img.head?.map List.length).getD 0) / w)
        default with hd | hd
    · exact Or.inl ⟨_, hr, hd⟩
    · exact Or.inr hd
  · rw [hr]
    simp

theorem cvResize_length {γ : Type _} [Inhabited γ] (img : List (List γ))
    (w h : Nat) :
    (cvResize img w h).length = h ∧
    ∀ row ∈ cvResize img w h, row.length = w := by
  constructor
  · simp [cvResize]
  · intro row hrow
    simp only [cvResize, List.mem_map] at hrow
    obtain ⟨i, _, rfl⟩ := hrow
    simp

theorem rgbToGray_le (p : RGB) (hb : p.1 ≤ 255 ∧ p.2.1 ≤ 255 ∧ p.2.2 ≤ 255) :
    rgbToGray p ≤ 255 := by
  rcases p with ⟨r, g, b⟩
  simp only [Prod.fst, Prod.snd] at hb
  have : 299 * r + 587 * g + 114 * b + 500 ≤ 255500 := by omega
  calc (299 * r + 587 * g + 114 * b + 500) / 1000
      ≤ 255500 / 1000 := Nat.div_le_div_right this
    _ = 255 := by norm_num

end ResizeHelpers

section ResolverExtra

theorem classifyOutputs_snd_cons_scalar (i : Nat) (a : NDArray)
    (l : List NDArray) (h : a.ndim = 1 ∨ a.ndim = 2) :
    (classifyOutputs i (a :: l)).2 =
      (i, if a.ndim = 1 then a.reshapeRow else a) :: (classifyOutputs (i + 1) l).2 := by
  rcases h with h | h <;> rw [classifyOutputs_snd_cons] <;> simp [h]

end ResolverExtra

/-! ## The claims -/

/-- C1: for a raw output sequence whose position 0 holds the only rank-4
array and whose positions 1 and 2 hold rank-1-or-2 arrays, the resolver
assigns the rank-4 array to the thermal role, the position-1 array to
the ripeness role and the position-2 array to the guard role (each
rank-1 array reshaped to a one-row rank-2 array, per the spec's rule 2),
regardless of the numeric values in any array; scalar candidates beyond
the second and elements of other ranks in the remainder are ignored. -/
theorem resolve_assigns_positional_roles (a0 a1 a2 : NDArray)
    (rest : List NDArray)
    (h0 : a0.ndim = 4)
    (h1 : a1.ndim = 1 ∨ a1.ndim = 2)
    (h2 : a2.ndim = 1 ∨ a2.ndim = 2)
    (hrest : ∀ b ∈ rest, b.ndim ≠ 4) :
    parseModelOutputs (.seq (a0 :: a1 :: a2 :: rest)) = .ok
      { ripeness := some (if a1.ndim = 1 then a1.reshapeRow else a1)
        thermal := some a0
        guava_guard := some (if a2.ndim = 1 then a2.reshapeRow else a2) } := by
  have hne1 : a1.ndim ≠ 4 := by rcases h1 with h | h <;> simp [h]
  have hne2 : a2.ndim ≠ 4 := by rcases h2 with h | h <;> simp [h]
  have hfst : (classifyOutputs 0 (a0 :: a1 :: a2 :: rest)).1 = [(0, a0)] := by
    rw [classifyOutputs_fst_cons, if_pos h0, classifyOutputs_fst_cons,
      if_neg hne1, classifyOutputs_fst_cons, if_neg hne2,
      classifyOutputs_fst_nil rest hrest 3]
  have hsnd : (classifyOutputs 0 (a0 :: a1 :: a2 :: rest)).2 =
      (1, if a1.ndim = 1 then a1.reshapeRow else a1) ::
      (2, if a2.ndim = 1 then a2.reshapeRow else a2) ::
      (classifyOutputs 3 rest).2 := by
    rw [classifyOutputs_snd_cons, if_pos h0,
      classifyOutputs_snd_cons_scalar 1 a1 _ h1,
      classifyOutputs_snd_cons_scalar 2 a2 _ h2]
  have hpw : ((classifyOutputs 0 (a0 :: a1 :: a2 :: rest)).2).Pairwise
      (fun p q => p.1 < q.1) := by
    rw [hsnd]
    refine List.pairwise_cons.2 ⟨?_, List.pairwise_cons.2 ⟨?_, ?_⟩⟩
    · intro q hq
      rcases List.mem_cons.1 hq with rfl | hq
      · exact Nat.one_lt_two
      · exact lt_of_lt_of_le (by omega) (classifyOutputs_snd_le rest 3 q hq)
    · intro q hq
      exact lt_of_lt_of_le (by omega) (classifyOutputs_snd_le rest 3 q hq)
    · exact classifyOutputs_snd_pairwise rest 3
  rw [parseModelOutputs_seq, hfst, sortAscBy_of_pairwise _ _ hpw, hsnd]
  rfl

/-- Closed witness for C1: a concrete raw triple (one rank-4 array, one
rank-2 array, one rank-1 array) resolved at the stated roles. -/
theorem resolve_assigns_positional_roles_witness :
    parseModelOutputs (.seq
      [⟨[1, 2, 2, 1], [1, 2, 3, 4]⟩, ⟨[1, 1], [1/2]⟩, ⟨[1], [3/10]⟩]) = .ok
      { ripeness := some ⟨[1, 1], [1/2]⟩
        thermal := some ⟨[1, 2, 2, 1], [1, 2, 3, 4]⟩
        guava_guard := some ⟨[1, 1], [3/10]⟩ } := by
  have h := resolve_assigns_positional_roles
    ⟨[1, 2, 2, 1], [1, 2, 3, 4]⟩ ⟨[1, 1], [1/2]⟩ ⟨[1], [3/10]⟩ []
    (by decide) (by decide) (by decide) (by decide)
  simpa [NDArray.reshapeRow, NDArray.ndim, NDArray.size] using h

/-- C2 counterexample: on the empty raw sequence the resolver does not
raise — `_parse_model_outputs` contains no `raise` statement and simply
returns the dictionary with all three roles `None`, so the claim that
`resolve` raises for every empty `RawOutputSet` is false. -/
theorem resolve_empty_returns_ok :
    parseModelOutputs (.seq []) = .ok
      { ripeness := none, thermal := none, guava_guard := none } ∧
    (parseModelOutputs (.seq [])).isOk = true := by
  constructor <;> rfl

/-- C2 (amended): the resolver never raises for any well-formed
`RawOutputSet` — including the empty sequence, which yields a result
with every role absent rather than a `MalformedOutputError`. -/
theorem resolve_never_raises (raw : RawOutputSet) :
    (parseModelOutputs raw).isOk = true := by
  cases raw with
  | single a => rfl
  | seq l =>
    rw [parseModelOutputs_seq]
    rfl

/-- C10: an element of the raw sequence whose rank is neither 1, 2 nor
4 is classified as neither a spatial nor a classification candidate and
causes no error; a sequence consisting only of such elements resolves
to all three roles absent (and still without error). -/
theorem resolve_ignores_unknown_ranks (raw : List NDArray) :
    (∀ j b, ¬(b.ndim = 1 ∨ b.ndim = 2 ∨ b.ndim = 4) →
      (j, b) ∉ (classifyOutputs 0 raw).1 ∧ (j, b) ∉ (classifyOutputs 0 raw).2) ∧
    ((∀ a ∈ raw, ¬(a.ndim = 1 ∨ a.ndim = 2 ∨ a.ndim = 4)) →
      parseModelOutputs (.seq raw) = .ok
        { ripeness := none, thermal := none, guava_guard := none }) := by
  constructor
  · intro j b hb
    constructor
    · intro hmem
      obtain ⟨k, _, _, h4⟩ := (classifyOutputs_fst_mem raw 0 j b).1 hmem
      exact hb (Or.inr (Or.inr h4))
    · intro hmem
      have h2 := classifyOutputs_snd_ndim raw 0 (j, b) hmem
      exact hb (Or.inr (Or.inl h2))
  · intro hall
    have hfst : (classifyOutputs 0 raw).1 = [] :=
      classifyOutputs_fst_nil raw
        (fun a ha h4 => hall a ha (Or.inr (Or.inr h4))) 0
    have hsnd : (classifyOutputs 0 raw).2 = [] :=
      classifyOutputs_snd_nil raw
        (fun a ha => ⟨fun h1 => hall a ha (Or.inl h1),
          fun h2 => hall a ha (Or.inr (Or.inl h2))⟩) 0
    rw [parseModelOutputs_seq, hfst, hsnd]
    rfl

/-- Closed witness for C10: a sequence holding one rank-3 array and one
rank-0 array yields no candidate of either kind and a result with all
roles absent. -/
theorem resolve_ignores_unknown_ranks_witness :
    ((0, (⟨[2, 2, 2], [1, 2, 3, 4, 5, 6, 7, 8]⟩ : NDArray)) ∉
      (classifyOutputs 0 [⟨[2, 2, 2], [1, 2, 3, 4, 5, 6, 7, 8]⟩, ⟨[], [9]⟩]).1) ∧
    parseModelOutputs (.seq [⟨[2, 2, 2], [1, 2, 3, 4, 5, 6, 7, 8]⟩, ⟨[], [9]⟩]) =
      .ok { ripeness := none, thermal := none, guava_guard := none } :=
  ⟨((resolve_ignores_unknown_ranks _).1 0 _ (by decide)).1,
   (resolve_ignores_unknown_ranks _).2 (by decide)⟩

/-- C3: when the raw sequence contains at least one rank-4 element the
thermal role is the rank-4 element with the largest total element count,
ties broken by the lowest original position; with no rank-4 element the
thermal role is absent. -/
theorem resolve_thermal_largest_spatial (raw : List NDArray) :
    ((∃ a ∈ raw, a.ndim = 4) →
      ∃ (i : Nat) (a : NDArray), raw[i]? = some a ∧ a.ndim = 4 ∧
        (∃ p, parseModelOutputs (.seq raw) = .ok p ∧ p.thermal = some a) ∧
        ∀ (j : Nat) (b : NDArray), raw[j]? = some b → b.ndim = 4 →
          b.size ≤ a.size ∧ (b.size = a.size → i ≤ j)) ∧
    ((∀ a ∈ raw, a.ndim ≠ 4) →
      ∃ p, parseModelOutputs (.seq raw) = .ok p ∧ p.thermal = none) := by
  constructor
  · rintro ⟨a, ha, h4⟩
    obtain ⟨k, hk⟩ := List.mem_iff_getElem?.1 ha
    have hmem : (k, a) ∈ (classifyOutputs 0 raw).1 :=
      (classifyOutputs_fst_mem raw 0 k a).2 ⟨k, hk, (Nat.zero_add k).symm, h4⟩
    have hne : (classifyOutputs 0 raw).1 ≠ [] :=
      fun hnil => by rw [hnil] at hmem; simp at hmem
    obtain ⟨p, hp⟩ : ∃ p, firstMaxBy (fun q => q.2.size)
        (classifyOutputs 0 raw).1 = some p := by
      cases hfm : firstMaxBy (fun q => q.2.size) (classifyOutputs 0 raw).1 with
      | none => exact absurd ((firstMaxBy_eq_none_iff _ _).1 hfm) hne
      | some p => exact ⟨p, rfl⟩
    obtain ⟨hpmem, hpmax⟩ := firstMaxBy_spec (fun q => q.2.size) Prod.fst
      (classifyOutputs 0 raw).1 (classifyOutputs_fst_pairwise raw 0) p hp
    obtain ⟨k2, hk2, hpk2, hp4⟩ :=
      (classifyOutputs_fst_mem raw 0 p.1 p.2).1 (by
        have : (p.1, p.2) = p := rfl
        rw [this]
        exact hpmem)
    refine ⟨p.1, p.2, ?_, hp4, ?_, ?_⟩
    · rw [hpk2, Nat.zero_add]
      exact hk2
    · refine ⟨_, parseModelOutputs_seq raw, ?_⟩
      simp only [sortDescBy_head?, hp]
      rfl
    · intro j b hjb hb4
      have hjmem : (j, b) ∈ (classifyOutputs 0 raw).1 :=
        (classifyOutputs_fst_mem raw 0 j b).2 ⟨j, hjb, (Nat.zero_add j).symm, hb4⟩
      exact hpmax (j, b) hjmem
  · intro hnone
    refine ⟨_, parseModelOutputs_seq raw, ?_⟩
    rw [classifyOutputs_fst_nil raw hnone 0]
    rfl

/-- Closed witness for C3, both branches: among two rank-4 arrays of
four and eight elements plus a rank-2 array, the eight-element one is
the thermal role; and a sequence with no rank-4 element has no thermal
role. -/
theorem resolve_thermal_largest_spatial_witness :
    (∃ (i : Nat) (a : NDArray),
      ([⟨[1, 2, 2, 1], [1, 2, 3, 4]⟩, ⟨[1, 4, 2, 1], [5, 6, 7, 8, 9, 10, 11, 12]⟩,
        ⟨[1, 1], [1/2]⟩] : List NDArray)[i]? = some a ∧ a.ndim = 4 ∧
      (∃ p, parseModelOutputs (.seq [⟨[1, 2, 2, 1], [1, 2, 3, 4]⟩,
          ⟨[1, 4, 2, 1], [5, 6, 7, 8, 9, 10, 11, 12]⟩, ⟨[1, 1], [1/2]⟩]) = .ok p ∧
        p.thermal = some a) ∧
      ∀ (j : Nat) (b : NDArray),
        ([⟨[1, 2, 2, 1], [1, 2, 3, 4]⟩, ⟨[1, 4, 2, 1], [5, 6, 7, 8, 9, 10, 11, 12]⟩,
          ⟨[1, 1], [1/2]⟩] : List NDArray)[j]? = some b → b.ndim = 4 →
        b.size ≤ a.size ∧ (b.size = a.size → i ≤ j)) ∧
    (∃ p, parseModelOutputs (.seq [(⟨[1, 1], [1/2]⟩ : NDArray)]) = .ok p ∧
      p.thermal = none) :=
  ⟨(resolve_thermal_largest_spatial _).1 ⟨⟨[1, 2, 2, 1], [1, 2, 3, 4]⟩, by decide⟩,
   (resolve_thermal_largest_spatial _).2 (by decide)⟩

/-- The enabled gate's result, written with `gateMatchPct`. -/
theorem check_color_enabled_eq (gate : GuavaGate) (img : PixelBuffer)
    (hen : gate.enabled = true) :
    gate.check_color img =
      (decide (gate.threshold ≤ gateMatchPct img), gateMatchPct img,
       if gate.threshold ≤ gateMatchPct img then
         GateMessage.guavaConfirmed (gateMatchPct img)
       else GateMessage.notGuava) := by
  simp only [GuavaGate.check_color, hen, Bool.not_true, Bool.false_eq_true,
    if_false, gateMatchPct, decide_eq_true_eq]
  simp [Function.comp_def]

/-- The match count over the whole grid is at most the pixel count. -/
theorem matching_le_total (img : PixelBuffer) (w : Nat)
    (hw : ∀ row ∈ img, row.length = w) :
    (img.map fun row => row.countP fun p => inGuavaRange (rgbToHsv p)).sum ≤
      img.length * w := by
  calc (img.map fun row => row.countP fun p => inGuavaRange (rgbToHsv p)).sum
      ≤ (img.map fun row => row.length).sum :=
        List.sum_le_sum fun r _ => List.countP_le_length _
    _ = (img.map fun _ => w).sum := by
        apply congrArg
        exact List.map_congr_left fun r hr => hw r hr
    _ = img.length * w := by
        simp [List.map_const, List.sum_replicate, smul_eq_mul]

/-- For a rectangular non-empty image, `shape[1]` is the row width. -/
theorem width_eq (img : PixelBuffer) (w : Nat)
    (hw : ∀ row ∈ img, row.length = w) (hpos : 0 < img.length * w) :
    img.width = w := by
  cases img with
  | nil => simp at hpos
  | cons r rs =>
    simp only [PixelBuffer.width, List.head?, Option.map_some, Option.getD_some]
    exact hw r (List.mem_cons_self _ _)

/-- C4: with the gate enabled, on an H×W×3 pixel buffer the match
fraction is the count of pixels whose HSV hue lies in [25, 85] with
saturation and value each at least 40 (the spec's mask criterion,
without the vacuous 255 upper bounds of `inRange`), divided by H·W and
multiplied by 100; and `is_match` holds exactly when the threshold is
reached (false for coverage strictly below it). -/
theorem gate_match_fraction_spec (gate : GuavaGate) (img : PixelBuffer)
    (w : Nat)
    (hen : gate.enabled = true)
    (hw : ∀ row ∈ img, row.length = w)
    (hb : img.bounded)
    (hpos : 0 < img.length * w) :
    (gate.check_color img).2.1 =
      (((img.map fun row => row.countP guavaMaskSpec).sum : Nat) : Rat)
        / ((img.length * w : Nat) : Rat) * 100 ∧
    ((gate.check_color img).1 = true ↔
      gate.threshold ≤ (gate.check_color img).2.1) := by
  have hcount : (img.map fun row => row.countP fun p => inGuavaRange (rgbToHsv p)).sum
      = (img.map fun row => row.countP guavaMaskSpec).sum := by
    apply congrArg
    apply List.map_congr_left
    intro row hrow
    apply List.countP_congr
    intro p hp
    rw [inGuavaRange_eq_spec p (hb row hrow p hp)]
  have hpct : gateMatchPct img =
      (((img.map fun row => row.countP guavaMaskSpec).sum : Nat) : Rat)
        / ((img.length * w : Nat) : Rat) * 100 := by
    rw [gateMatchPct, hcount, PixelBuffer.height, width_eq img w hw hpos]
  rw [check_color_enabled_eq gate img hen]
  exact ⟨hpct, by simp [hpct]⟩

/-- Closed witness for C4: a 1×2 image of one mid-green and one red
pixel, threshold 20%: the green pixel alone matches the mask, the match
fraction is 50 and the gate accepts. -/
theorem gate_match_fraction_spec_witness :
    (GuavaGate.check_color ⟨20, true⟩ [[(0, 255, 0), (255, 0, 0)]]).2.1 =
      ((([[(0, 255, 0), (255, 0, 0)]].map
          fun row => row.countP guavaMaskSpec).sum : Nat) : Rat)
        / (((1 * 2 : Nat) : Nat) : Rat) * 100 ∧
    ((GuavaGate.check_color ⟨20, true⟩ [[(0, 255, 0), (255, 0, 0)]]).1 = true ↔
      (20 : Rat) ≤ (GuavaGate.check_color ⟨20, true⟩
        [[(0, 255, 0), (255, 0, 0)]]).2.1) :=
  gate_match_fraction_spec ⟨20, true⟩ [[(0, 255, 0), (255, 0, 0)]] 2
    rfl (by decide) (by decide) (by decide)

/-- C5 counterexample: the claim that `match_fraction` lies in
[0.0, 1.0] is false — the disabled gate returns `match_fraction = 100.0`
(and an enabled gate on an all-green image returns 100.0 as well): the
field is a percentage on the 0–100 scale. -/
theorem gate_match_fraction_exceeds_one :
    (GuavaGate.check_color ⟨20, false⟩ [[(0, 0, 0)]]).2.1 = 100 ∧
    ¬((GuavaGate.check_color ⟨20, false⟩ [[(0, 0, 0)]]).2.1 ≤ 1) := by
  constructor
  · rfl
  · rw [show (GuavaGate.check_color ⟨20, false⟩ [[(0, 0, 0)]]).2.1 = 100 from rfl]
    norm_num

/-- C5 (amended): on every rectangular non-empty pixel buffer, enabled
or disabled, the `match_fraction` returned by the gate lies in the range
0.0 to 100.0 (it is a percentage; the response's `gate_confidence` field
is this value divided by 100). -/
theorem gate_match_fraction_range (gate : GuavaGate) (img : PixelBuffer)
    (w : Nat)
    (hw : ∀ row ∈ img, row.length = w)
    (hpos : 0 < img.length * w) :
    0 ≤ (gate.check_color img).2.1 ∧ (gate.check_color img).2.1 ≤ 100 := by
  by_cases hen : gate.enabled = true
  · rw [check_color_enabled_eq gate img hen]
    have hT : (0 : Rat) < ((img.length * w : Nat) : Rat) := by
      exact_mod_cast hpos
    have hfrac : gateMatchPct img =
        (((img.map fun row => row.countP fun p => inGuavaRange (rgbToHsv p)).sum : Nat) : Rat)
          / ((img.length * w : Nat) : Rat) * 100 := by
      rw [gateMatchPct, PixelBuffer.height, width_eq img w hw hpos]
    constructor
    · rw [hfrac]
      positivity
    · rw [hfrac]
      have h1 : (((img.map fun row => row.countP fun p => inGuavaRange (rgbToHsv p)).sum : Nat) : Rat)
          / ((img.length * w : Nat) : Rat) ≤ 1 :=
        (div_le_one hT).2 (by exact_mod_cast matching_le_total img w hw)
      calc (((img.map fun row => row.countP fun p => inGuavaRange (rgbToHsv p)).sum : Nat) : Rat)
            / ((img.length * w : Nat) : Rat) * 100
          ≤ 1 * 100 := by
            exact mul_le_mul_of_nonneg_right h1 (by norm_num)
        _ = 100 := by norm_num
  · have hen2 : gate.enabled = false := by
      cases h : gate.enabled
      · rfl
      · exact absurd h hen
    simp [GuavaGate.check_color, hen2]

/-- Closed witness for C5 (amended) at a concrete 1×1 red image with an
enabled gate. -/
theorem gate_match_fraction_range_witness :
    0 ≤ (GuavaGate.check_color ⟨20, true⟩ [[(255, 0, 0)]]).2.1 ∧
    (GuavaGate.check_color ⟨20, true⟩ [[(255, 0, 0)]]).2.1 ≤ 100 :=
  gate_match_fraction_range ⟨20, true⟩ [[(255, 0, 0)]] 1 (by decide) (by decide)

/-- C9: on a constant-valued (flat) spatial array the renderer performs
no division (the value range 0 does not exceed the 1e-6 epsilon, so the
rescaling branch — the only place a division occurs — is not taken) and
emits an all-zero-intensity grid of the same element count, without
raising. -/
theorem render_flat_all_zero (a : NDArray)
    (hconst : ∀ x ∈ a.data, ∀ y ∈ a.data, x = y) :
    renderThermalNorm a = a.data.map (fun _ => 0) ∧
    (renderThermalNorm a).length = a.data.length ∧
    ∀ z ∈ renderThermalNorm a, z = 0 := by
  have hmm : listMin a.data = listMax a.data :=
    listMin_eq_listMax_of_const a.data hconst
  have hzero : renderThermalNorm a = a.data.map (fun _ => 0) := by
    rw [renderThermalNorm, ← hmm]
    rw [if_neg (by simp)]
  refine ⟨hzero, ?_, ?_⟩
  · rw [hzero, List.length_map]
  · intro z hz
    rw [hzero] at hz
    simp only [List.mem_map] at hz
    obtain ⟨_, _, rfl⟩ := hz
    rfl

/-- Closed witness for C9: a concrete constant 1×2×2×1 thermal array
renders as the all-zero grid. -/
theorem render_flat_all_zero_witness :
    renderThermalNorm ⟨[1, 2, 2, 1], [1/2, 1/2, 1/2, 1/2]⟩ =
      ([1/2, 1/2, 1/2, 1/2] : List Rat).map (fun _ => 0) ∧
    (renderThermalNorm ⟨[1, 2, 2, 1], [1/2, 1/2, 1/2, 1/2]⟩).length = 4 ∧
    ∀ z ∈ renderThermalNorm ⟨[1, 2, 2, 1], [1/2, 1/2, 1/2, 1/2]⟩, z = 0 :=
  render_flat_all_zero ⟨[1, 2, 2, 1], [1/2, 1/2, 1/2, 1/2]⟩ (by simp)

/-- C8: a one-element scores array with labels absent is expanded to the
two-class distribution class 0 = 1 − p, class 1 = p, labelled
`class_0` / `class_1` and sorted descending by confidence (stable, so on
the exact tie p = 1/2 class 0 keeps its original first position); in
particular `rank([0.8], labels=None, top_k=5)` returns class 1 at 0.8
before class 0 at 0.2. -/
theorem rank_single_score_binary :
    (∀ (shape : List Nat) (p : Rat),
      build_predictions ⟨shape, [p]⟩ none 5 =
        if p ≤ 1 - p then
          [⟨classLabel 0, 1 - p⟩, ⟨classLabel 1, p⟩]
        else
          [⟨classLabel 1, p⟩, ⟨classLabel 0, 1 - p⟩]) ∧
    build_predictions ⟨[1], [4/5]⟩ none 5 =
      [⟨"class_1", 4/5⟩, ⟨"class_0", 1/5⟩] := by
  have hmain : ∀ (shape : List Nat) (p : Rat),
      build_predictions ⟨shape, [p]⟩ none 5 =
        if p ≤ 1 - p then
          [⟨classLabel 0, 1 - p⟩, ⟨classLabel 1, p⟩]
        else
          [⟨classLabel 1, p⟩, ⟨classLabel 0, 1 - p⟩] := by
    intro shape p
    by_cases hle : p ≤ 1 - p <;>
      simp [build_predictions, sortDescBy, insertDescBy, hle, List.range_succ]
  refine ⟨hmain, ?_⟩
  rw [hmain [1] (4/5), if_neg (by norm_num)]
  have h1 : classLabel 1 = "class_1" := rfl
  have h0 : classLabel 0 = "class_0" := rfl
  rw [h1, h0]
  norm_num

/-- C6: when the gate rejects an image, the `/predict` handler returns
a normal successful (HTTP 200, `success = true`) body with
`is_guava = false`, an empty prediction list and a null thermal image,
the pipeline never runs past the gate (the preprocessing/inference flag
is `false`), and the outcome is independent of the loaded model's
predict function — the model is never invoked. -/
theorem pipeline_gate_reject_no_inference (st : AppState) (img : PixelBuffer)
    (hreject : (st.gate.check_color img).1 = false) :
    predictCore st img = .ok
      ({ success := true
         is_guava := false
         message := some (st.gate.check_color img).2.2
         gate_confidence := some (round4 ((st.gate.check_color img).2.1 / 100))
         predictions := []
         thermal_image := none
         meta := { model_input_shape := st.modelInputShape
                   gate_confidence := round4 ((st.gate.check_color img).2.1 / 100)
                   gate_message := (st.gate.check_color img).2.2 } }, false) ∧
    ∀ f, predictCore { st with modelPredict := f } img = predictCore st img := by
  constructor
  · simp only [predictCore, hreject, Bool.not_false, if_true]
  · intro f
    simp only [predictCore, hreject, Bool.not_false, if_true]

/-- Closed witness for C6: a 1×1 red-pixel image against a threshold-20
enabled gate; the response is the gate-rejection body and the pipeline
flag is false, for any model predict function. -/
theorem pipeline_gate_reject_no_inference_witness :
    predictCore
      ⟨[1, 224, 224, 3], fun _ => RawOutputSet.seq [], (224, 224), 3, none,
        ⟨20, true⟩⟩ [[(255, 1, 1)]] = .ok
      ({ success := true
         is_guava := false
         message := some ((GuavaGate.mk 20 true).check_color [[(255, 1, 1)]]).2.2
         gate_confidence :=
           some (round4 (((GuavaGate.mk 20 true).check_color [[(255, 1, 1)]]).2.1 / 100))
         predictions := []
         thermal_image := none
         meta := { model_input_shape := [1, 224, 224, 3]
                   gate_confidence :=
                     round4 (((GuavaGate.mk 20 true).check_color [[(255, 1, 1)]]).2.1 / 100)
                   gate_message :=
                     ((GuavaGate.mk 20 true).check_color [[(255, 1, 1)]]).2.2 } },
       false) ∧
    ∀ f, predictCore
        { (⟨[1, 224, 224, 3], fun _ => RawOutputSet.seq [], (224, 224), 3, none,
            ⟨20, true⟩⟩ : AppState) with modelPredict := f } [[(255, 1, 1)]] =
      predictCore
        ⟨[1, 224, 224, 3], fun _ => RawOutputSet.seq [], (224, 224), 3, none,
          ⟨20, true⟩⟩ [[(255, 1, 1)]] :=
  pipeline_gate_reject_no_inference
    ⟨[1, 224, 224, 3], fun _ => RawOutputSet.seq [], (224, 224), 3, none,
      ⟨20, true⟩⟩ [[(255, 1, 1)]]
    (by
      have hcount : (([[(255, 1, 1)]] : PixelBuffer).map
          fun row => row.countP fun p => inGuavaRange (rgbToHsv p)).sum = 0 := by
        decide
      have h : gateMatchPct [[(255, 1, 1)]] = 0 := by
        rw [gateMatchPct, hcount]
        norm_num
      rw [check_color_enabled_eq _ _ rfl]
      show decide ((20 : Rat) ≤ gateMatchPct [[(255, 1, 1)]]) = false
      rw [h]
      norm_num)

theorem headD_mem {γ : Type _} {l : List γ} (hl : l ≠ []) (d : γ) :
    l.headD d ∈ l := by
  cases l with
  | nil => exact absurd rfl hl
  | cons a t => simp

theorem length_headD_of_forall {γ : Type _} (l : List (List γ)) (w : Nat)
    (hne : l ≠ []) (hall : ∀ r ∈ l, r.length = w) :
    (l.headD []).length = w :=
  hall _ (headD_mem hne [])

theorem sample_bounds {x : Rat} (n : Nat) (hn : n ≤ 255)
    (hx : x = (n : Rat) / 255) : 0 ≤ x ∧ x ≤ 1 := by
  subst hx
  constructor
  · positivity
  · rw [div_le_one (by norm_num)]
    exact_mod_cast hn

/-- Every sample of the resized grayscale grid is 8-bit. -/
theorem cvResize_gray_le (img : PixelBuffer) (w h : Nat) (hb : img.bounded) :
    ∀ row ∈ cvResize (img.map fun r => r.map rgbToGray) w h,
      ∀ n ∈ row, n ≤ 255 := by
  intro row hrow n hn
  rcases cvResize_mem _ w h row hrow n hn with ⟨gr, hgr, hngr⟩ | hdef
  · simp only [List.mem_map] at hgr
    obtain ⟨irow, hirow, rfl⟩ := hgr
    simp only [List.mem_map] at hngr
    obtain ⟨pix, hpix, rfl⟩ := hngr
    exact rgbToGray_le pix (hb irow hirow pix hpix)
  · simp [hdef]

/-- Every pixel of the resized colour grid is 8-bit. -/
theorem cvResize_rgb_le (img : PixelBuffer) (w h : Nat) (hb : img.bounded) :
    ∀ row ∈ cvResize img w h, ∀ p ∈ row,
      p.1 ≤ 255 ∧ p.2.1 ≤ 255 ∧ p.2.2 ≤ 255 := by
  intro row hrow p hp
  rcases cvResize_mem img w h row hrow p hp with ⟨r, hr, hpr⟩ | hdef
  · exact hb r hr p hpr
  · rw [hdef]
    exact ⟨Nat.zero_le _, Nat.zero_le _, Nat.zero_le _⟩

/-- C7: for every decoded pixel buffer and every positive target
geometry with 1 or 3 channels, `preprocess_image` yields a tensor of
shape exactly (1, target height, target width, channels) whose values
are 8-bit samples divided by 255, hence in [0, 1]. -/
theorem preprocess_shape_and_range (img : PixelBuffer) (h w c : Nat)
    (hh : 0 < h) (hw : 0 < w) (hb : img.bounded) (hc : c = 1 ∨ c = 3) :
    tensorShape (preprocess_image img (h, w) c) = [1, h, w, c] ∧
    ∀ x ∈ (preprocess_image img (h, w) c).flatten.flatten.flatten,
      (0 ≤ x ∧ x ≤ 1) ∧ ∃ n : Nat, n ≤ 255 ∧ x = (n : Rat) / 255 := by
  rcases hc with rfl | rfl
  · -- grayscale path
    have hpre : preprocess_image img (h, w) 1 =
        [((cvResize (img.map fun r => r.map rgbToGray) w h).map
            fun row => row.map fun (n : Nat) => (n : Rat) / 255).map
          fun row => row.map fun x => [x]] := by
      simp [preprocess_image]
    have hRlen := (cvResize_length (img.map fun r => r.map rgbToGray) w h).1
    have hRrows := (cvResize_length (img.map fun r => r.map rgbToGray) w h).2
    have hRbound := cvResize_gray_le img w h hb
    set X := ((cvResize (img.map fun r => r.map rgbToGray) w h).map
        fun row => row.map fun (n : Nat) => (n : Rat) / 255).map
      fun row => row.map fun x => [x] with hX
    have hXlen : X.length = h := by
      simp [hX, hRlen]
    have hXrows : ∀ r ∈ X, r.length = w := by
      intro r hr
      simp only [hX, List.mem_map] at hr
      obtain ⟨r1, hr1, rfl⟩ := hr
      obtain ⟨r0, hr0, rfl⟩ := hr1
      simp [hRrows r0 hr0]
    have hXelems : ∀ r ∈ X, ∀ e ∈ r, e.length = 1 := by
      intro r hr e he
      simp only [hX, List.mem_map] at hr
      obtain ⟨r1, hr1, rfl⟩ := hr
      simp only [List.mem_map] at he
      obtain ⟨y, hy, rfl⟩ := he
      rfl
    have hXne : X ≠ [] := List.length_pos.mp (by rw [hXlen]; exact hh)
    constructor
    · rw [hpre, tensorShape]
      simp only [List.headD_cons, List.length_cons, List.length_nil]
      have h2 : (X.headD []).length = w := length_headD_of_forall X w hXne hXrows
      have h3 : ((X.headD []).headD []).length = 1 := by
        have hmem : X.headD [] ∈ X := headD_mem hXne []
        have hne2 : X.headD [] ≠ [] := List.length_pos.mp (by rw [h2]; exact hw)
        exact hXelems _ hmem _ (headD_mem hne2 [])
      rw [hXlen, h2, h3]
    · intro x hx
      rw [hpre] at hx
      simp only [List.flatten_cons, List.flatten_nil, List.append_nil] at hx
      rw [List.mem_flatten] at hx
      obtain ⟨e, he, hxe⟩ := hx
      rw [List.mem_flatten] at he
      obtain ⟨r, hr, her⟩ := he
      simp only [hX, List.mem_map] at hr
      obtain ⟨r1, hr1, rfl⟩ := hr
      obtain ⟨r0, hr0, rfl⟩ := hr1
      simp only [List.mem_map] at her
      obtain ⟨y, hy, rfl⟩ := her
      obtain ⟨n, hn, rfl⟩ := hy
      simp only [List.mem_singleton] at hxe
      subst hxe
      have hn255 : n ≤ 255 := hRbound r0 hr0 n hn
      exact ⟨sample_bounds n hn255 rfl, n, hn255, rfl⟩
  · -- colour path
    have hpre : preprocess_image img (h, w) 3 =
        [(cvResize img w h).map fun row => row.map fun p =>
          [(p.1 : Rat) / 255, (p.2.1 : Rat) / 255, (p.2.2 : Rat) / 255]] := by
      simp [preprocess_image]
    have hRlen := (cvResize_length img w h).1
    have hRrows := (cvResize_length img w h).2
    have hRbound := cvResize_rgb_le img w h hb
    set X := (cvResize img w h).map fun row => row.map fun p =>
      [(p.1 : Rat) / 255, (p.2.1 : Rat) / 255, (p.2.2 : Rat) / 255] with hX
    have hXlen : X.length = h := by
      simp [hX, hRlen]
    have hXrows : ∀ r ∈ X, r.length = w := by
      intro r hr
      simp only [hX, List.mem_map] at hr
      obtain ⟨r0, hr0, rfl⟩ := hr
      simp [hRrows r0 hr0]
    have hXelems : ∀ r ∈ X, ∀ e ∈ r, e.length = 3 := by
      intro r hr e he
      simp only [hX, List.mem_map] at hr
      obtain ⟨r0, hr0, rfl⟩ := hr
      simp only [List.mem_map] at he
      obtain ⟨p, hp, rfl⟩ := he
      rfl
    have hXne : X ≠ [] := List.length_pos.mp (by rw [hXlen]; exact hh)
    constructor
    · rw [hpre, tensorShape]
      simp only [List.headD_cons, List.length_cons, List.length_nil]
      have h2 : (X.headD []).length = w := length_headD_of_forall X w hXne hXrows
      have h3 : ((X.headD []).headD []).length = 3 := by
        have hmem : X.headD [] ∈ X := headD_mem hXne []
        have hne2 : X.headD [] ≠ [] := List.length_pos.mp (by rw [h2]; exact hw)
        exact hXelems _ hmem _ (headD_mem hne2 [])
      rw [hXlen, h2, h3]
    · intro x hx
      rw [hpre] at hx
      simp only [List.flatten_cons, List.flatten_nil, List.append_nil] at hx
      rw [List.mem_flatten] at hx
      obtain ⟨e, he, hxe⟩ := hx
      rw [List.mem_flatten] at he
      obtain ⟨r, hr, her⟩ := he
      simp only [hX, List.mem_map] at hr
      obtain ⟨r0, hr0, rfl⟩ := hr
      simp only [List.mem_map] at her
      obtain ⟨p, hp, rfl⟩ := her
      have hpb := hRbound r0 hr0 p hp
      simp only [List.mem_cons, List.mem_singleton, List.not_mem_nil,
        or_false] at hxe
      rcases hxe with rfl | rfl | rfl
      · exact ⟨sample_bounds p.1 hpb.1 rfl, p.1, hpb.1, rfl⟩
      · exact ⟨sample_bounds p.2.1 hpb.2.1 rfl, p.2.1, hpb.2.1, rfl⟩
      · exact ⟨sample_bounds p.2.2 hpb.2.2 rfl, p.2.2, hpb.2.2, rfl⟩

/-- Closed witness for C7: a 1×1 source image resized to a 1×1 colour
target has shape (1, 1, 1, 3) and sample values in [0, 1] of the form
n/255. -/
theorem preprocess_shape_and_range_witness :
    tensorShape (preprocess_image [[(10, 20, 30)]] (1, 1) 3) = [1, 1, 1, 3] ∧
    ∀ x ∈ (preprocess_image [[(10, 20, 30)]] (1, 1) 3).flatten.flatten.flatten,
      (0 ≤ x ∧ x ≤ 1) ∧ ∃ n : Nat, n ≤ 255 ∧ x = (n : Rat) / 255 :=
  preprocess_shape_and_range [[(10, 20, 30)]] 1 1 3
    (by decide) (by decide) (by decide) (Or.inr rfl)

end FruitFinal
